import Mathlib

/-!
Verification development for the cbe-utils library (TypeScript).

The library verifies Commercial Bank of Ethiopia direct-deposit
transactions: it classifies a caller-supplied input (bare reference code
or receipt URL), builds a PDF-receipt URL, fetches the receipt text via
an external collaborator, extracts transaction fields with fixed regular
expressions, and validates mandatory fields plus a maximum-age policy.

The embedding below models strings as `List Char` and the JavaScript
regular expressions of `src/constants.ts` by two small engines:

* the two classification patterns (`TRANSACTION_REFERENCE_REGEX`,
  `TRANSACTION_URL_REGEX`) contain only single-character atoms with exact
  repetition counts, so they are fixed-length token lists matched by
  `matchHere`/`testRegex` (JavaScript `RegExp.test` is an unanchored
  substring search);
* the five extraction patterns of `PDF_EXTRACTION_PATTERNS` use greedy
  quantifiers and one capture group each, with nothing after the group,
  so they are modelled by a small backtracking engine (`runs`, `matchAt`,
  `reSearch`) that enumerates remainders in JavaScript priority order
  (leftmost position first, greedy alternatives first).

JavaScript-specific semantics that the model reproduces faithfully:
`String.prototype.slice` with negative indices, `String.prototype.trim`,
the falsiness of the empty string (`|| null`), the fact that
`new Date(badString)` yields an *Invalid Date* object (it never throws),
and dayjs `diff(_, 'hour')`, which truncates the millisecond difference
toward zero (`Int.tdiv`).
-/

/-! ### Character classes used by the regular expressions -/

/-- Decimal digit, `\d` in the source regexes. -/
def isDigitC (c : Char) : Bool := 48 ≤ c.toNat && c.toNat ≤ 57

/-- Alphanumeric, the class `[a-zA-Z0-9]` of the classification regexes. -/
def isAlnumC (c : Char) : Bool :=
  (97 ≤ c.toNat && c.toNat ≤ 122) || (65 ≤ c.toNat && c.toNat ≤ 90) || isDigitC c

/-- JavaScript line terminators: LF, CR, U+2028, U+2029. -/
def isLineTerm (c : Char) : Bool :=
  c.toNat = 10 || c.toNat = 13 || c.toNat = 8232 || c.toNat = 8233

/-- The regex metacharacter `.` (no `s` flag): any char except a line terminator. -/
def dotChar (c : Char) : Bool := !isLineTerm c

/-- JavaScript `\s` (WhiteSpace plus LineTerminator productions). -/
def wsChar (c : Char) : Bool :=
  c.toNat = 32 || (9 ≤ c.toNat && c.toNat ≤ 13) || c.toNat = 160 || c.toNat = 5760 ||
  (8192 ≤ c.toNat && c.toNat ≤ 8202) || c.toNat = 8232 || c.toNat = 8233 ||
  c.toNat = 8239 || c.toNat = 8287 || c.toNat = 12288 || c.toNat = 65279

/-! ### Fixed-length token engine for the two classification regexes -/

/-- One single-character atom of a fixed-length regular expression. -/
inductive Tok where
  | lit (c : Char)
  | anyDot
  | alnum
  deriving DecidableEq

/-- Whether a character matches a token. -/
def tokMatch : Tok → Char → Bool
  | .lit c, d => d == c
  | .anyDot, d => dotChar d
  | .alnum, d => isAlnumC d

/-- Match a fixed-length pattern at the head of a string (extra characters
after the pattern are allowed, as in an unanchored regex). -/
def matchHere : List Tok → List Char → Bool
  | [], _ => true
  | _ :: _, [] => false
  | t :: ts, c :: cs => tokMatch t c && matchHere ts cs

/-- JavaScript `RegExp.test` for a fixed-length pattern: unanchored search,
true iff the pattern matches at some position. -/
def testRegex (p : List Tok) : List Char → Bool
  | [] => matchHere p []
  | c :: cs => matchHere p (c :: cs) || testRegex p cs

/-- Whether the whole string is exactly an instance of the pattern. -/
def matchExact (p : List Tok) (s : List Char) : Bool :=
  s.length == p.length && matchHere p s

/-- Literal tokens of a string. -/
def litToks (s : List Char) : List Tok := s.map Tok.lit

/-! ### The classification constants of `src/constants.ts` -/

/-- Source: `CBE_VERIFICATION_BASE_URL = 'https://apps.cbe.com.et:100'`. -/
def CBE_VERIFICATION_BASE_URL : List Char := "https://apps.cbe.com.et:100".data

/-- Source: `DEFAULT_MAX_TRANSACTION_AGE_HOURS = 24`. -/
def DEFAULT_MAX_TRANSACTION_AGE_HOURS : Int := 24

/-- Source regex `/FT[a-zA-Z0-9]{10}/`. -/
def TRANSACTION_REFERENCE_REGEX : List Tok :=
  litToks "FT".data ++ List.replicate 10 Tok.alnum

/-- Fixed leading part of the URL regex, before the 18 alphanumerics.
Source text `https:\/\/apps.cbe.com.et:100\/\?id=FT`: the three dots of the
host are *unescaped*, hence `anyDot` tokens. -/
def urlFixedToks : List Tok :=
  litToks "https://apps".data ++ [Tok.anyDot] ++ litToks "cbe".data ++ [Tok.anyDot] ++
  litToks "com".data ++ [Tok.anyDot] ++ litToks "et:100/?id=FT".data

/-- Source regex `/https:\/\/apps.cbe.com.et:100\/\?id=FT[a-zA-Z0-9]{18}/`. -/
def TRANSACTION_URL_REGEX : List Tok :=
  urlFixedToks ++ List.replicate 18 Tok.alnum

/-- `TRANSACTION_REFERENCE_REGEX.test input` of the source. -/
def refTest (s : List Char) : Bool := testRegex TRANSACTION_REFERENCE_REGEX s

/-- `TRANSACTION_URL_REGEX.test input` of the source. -/
def urlTest (s : List Char) : Bool := testRegex TRANSACTION_URL_REGEX s

/-! ### JavaScript string slicing used by `constructPdfUrl` -/

/-- JavaScript `s.slice(0, -8)`: everything but the last 8 characters
(the end index clamps at 0, exactly like truncated `Nat` subtraction). -/
def jsSliceDropLast8 (s : List Char) : List Char := s.take (s.length - 8)

/-- JavaScript `s.slice(-8)`: the last 8 characters, or the whole string
when it is shorter than 8 (the start index clamps at 0). -/
def jsSliceLast8 (s : List Char) : List Char := s.drop (s.length - 8)

/-! ### Error taxonomy

Each constructor corresponds to one `throw new Error(...)` site of the
source (messages in the comments); `retrieval` stands for an arbitrary
error raised by the external document-retrieval collaborator, which the
orchestrator propagates unchanged, here carrying its identity as data. -/

/-- Typed failures of the verification pipeline. -/
inductive Err where
  /-- Message `Input must be a non-empty string`. -/
  | EmptyInput
  /-- Message `Invalid transaction reference number or URL format`. -/
  | InvalidInputFormat
  /-- Message `CBE account number is required for verification`. -/
  | MissingAccountNumber
  /-- Message `Unable to construct PDF URL from input`. -/
  | UnableToConstructUrl
  /-- Opaque collaborator failure, carrying the URL it was invoked with. -/
  | retrieval (url : List Char)
  /-- Message `Transaction reference number not found in the PDF`. -/
  | MissingReferenceNumber
  /-- Message `Payment date and time not found in the PDF`. -/
  | MissingPaymentTimestamp
  /-- Message `Transaction is older than ... hours, cannot verify`. -/
  | TransactionTooOld
  deriving DecidableEq

instance {ε α : Type} [DecidableEq ε] [DecidableEq α] : DecidableEq (Except ε α) := fun
  | .error a, .error b =>
    if h : a = b then isTrue (congrArg Except.error h)
    else isFalse (fun he => h (Except.error.inj he))
  | .error _, .ok _ => isFalse Except.noConfusion
  | .ok _, .error _ => isFalse Except.noConfusion
  | .ok a, .ok b =>
    if h : a = b then isTrue (congrArg Except.ok h)
    else isFalse (fun he => h (Except.ok.inj he))

/-! ### Input classification and URL construction (`payment-verifier.ts`) -/

/-- Source `validateInput`: throws on empty input, then on input matching
neither classification regex (both via unanchored `RegExp.test`). -/
def validateInput (input : List Char) : Except Err Unit :=
  if input = [] then .error .EmptyInput
  else if !refTest input && !urlTest input then .error .InvalidInputFormat
  else .ok ()

/-- Source `constructPdfUrl`: URL-shaped inputs get their last 8 characters
replaced by the last 8 characters of the account number; reference-shaped
inputs are embedded into the canonical query URL. -/
def constructPdfUrl (input cbeAccountNumber : List Char) : Except Err (List Char) :=
  if urlTest input then
    .ok (jsSliceDropLast8 input ++ jsSliceLast8 cbeAccountNumber)
  else if refTest input then
    .ok (CBE_VERIFICATION_BASE_URL ++ "/?id=".data ++ input ++ jsSliceLast8 cbeAccountNumber)
  else .error .UnableToConstructUrl

/-! ### Backtracking engine for the extraction regexes

Every pattern of `PDF_EXTRACTION_PATTERNS` has the form `pre(grp)` — a
label part followed by a single capture group with nothing after it — and
uses only single-character classes under greedy quantifiers, so a match
attempt at a position is fully described by the list of possible string
remainders in JavaScript priority order (greedy alternatives first). -/

/-- Regular-expression shapes occurring in the extraction patterns. -/
inductive RE where
  /-- Empty pattern. -/
  | eps
  /-- A single-character class. -/
  | cls (f : Char → Bool)
  /-- Concatenation. -/
  | cat (a b : RE)
  /-- Alternation, left alternative preferred. -/
  | alt (a b : RE)
  /-- Greedy `f*`. -/
  | starCls (f : Char → Bool)
  /-- Greedy `f+`. -/
  | plusCls (f : Char → Bool)
  /-- Greedy `f{lo,hi}`. -/
  | repCls (f : Char → Bool) (lo hi : Nat)

/-- Remainders `s.drop n, s.drop (n-1), ..., s.drop lo` — the backtracking
order of a greedy quantifier that consumed `n` characters at most. -/
def backtracks (s : List Char) (lo n : Nat) : List (List Char) :=
  (List.range (n + 1 - lo)).map (fun j => s.drop (n - j))

/-- Length of the maximal run of `f`-characters at the head of `s`. -/
def leadRun (f : Char → Bool) (s : List Char) : Nat := (s.takeWhile f).length

/-- All remainders after matching `r` at the head of `s`, in JavaScript
backtracking priority order. -/
def runs : RE → List Char → List (List Char)
  | .eps, s => [s]
  | .cls _, [] => []
  | .cls f, c :: cs => if f c then [cs] else []
  | .cat a b, s => (runs a s).flatMap (runs b)
  | .alt a b, s => runs a s ++ runs b s
  | .starCls f, s => backtracks s 0 (leadRun f s)
  | .plusCls f, s =>
      let n := leadRun f s
      if n = 0 then [] else backtracks s 1 n
  | .repCls f lo hi, s =>
      let n := min (leadRun f s) hi
      if n < lo then [] else backtracks s lo n

/-- Literal regular expression for a string. -/
def litRE : List Char → RE
  | [] => .eps
  | c :: cs => .cat (.cls (fun d => d == c)) (litRE cs)

/-- Try the pattern `pre(grp)` at the head of `s`; on success return the
text captured by the group.  Backtracking over `pre` is the `findSome?`,
and since nothing follows the group, the group's first (greediest)
remainder wins. -/
def matchAt (pre grp : RE) (s : List Char) : Option (List Char) :=
  (runs pre s).findSome? (fun rem =>
    match (runs grp rem).head? with
    | some rem2 => some (rem.take (rem.length - rem2.length))
    | none => none)

/-- JavaScript `String.prototype.match` for a pattern `pre(grp)` without
the `g` flag: leftmost successful position wins; result is group 1. -/
def reSearch (pre grp : RE) : List Char → Option (List Char)
  | [] => matchAt pre grp []
  | c :: cs =>
    match matchAt pre grp (c :: cs) with
    | some v => some v
    | none => reSearch pre grp cs

/-- JavaScript `String.prototype.trim`. -/
def jsTrim (s : List Char) : List Char :=
  (((s.dropWhile wsChar).reverse).dropWhile wsChar).reverse

/-! ### The extraction patterns of `PDF_EXTRACTION_PATTERNS` -/

/-- Label part of `/Reference No\. \(VAT Invoice No\)\s*(.+)/`. -/
def referencePre : RE := .cat (litRE "Reference No. (VAT Invoice No)".data) (.starCls wsChar)

/-- Label part of `/Payment Date & Time\s*(...)/`. -/
def paymentDatePre : RE := .cat (litRE "Payment Date & Time".data) (.starCls wsChar)

/-- Label part of `/Total amount debited from customers account\s*(...)/`. -/
def totalAmountPre : RE :=
  .cat (litRE "Total amount debited from customers account".data) (.starCls wsChar)

/-- Label part of `/Receiver\s*(.+)/`. -/
def receiverPre : RE := .cat (litRE "Receiver".data) (.starCls wsChar)

/-- Label part of `/Payer\s*(.+)/`. -/
def payerPre : RE := .cat (litRE "Payer".data) (.starCls wsChar)

/-- The capture group `(.+)` shared by the reference, receiver and payer
patterns. -/
def dotPlusGrp : RE := .plusCls dotChar

/-- The capture group
`(\d{1,2}\/\d{1,2}\/\d{4}, \d{1,2}:\d{2}:\d{2} (?:AM|PM))`. -/
def dateGrp : RE :=
  .cat (.repCls isDigitC 1 2) (.cat (litRE "/".data)
  (.cat (.repCls isDigitC 1 2) (.cat (litRE "/".data)
  (.cat (.repCls isDigitC 4 4) (.cat (litRE ", ".data)
  (.cat (.repCls isDigitC 1 2) (.cat (litRE ":".data)
  (.cat (.repCls isDigitC 2 2) (.cat (litRE ":".data)
  (.cat (.repCls isDigitC 2 2) (.cat (litRE " ".data)
  (.alt (litRE "AM".data) (litRE "PM".data)))))))))))))

/-- Character class `[\d,.]` of the amount pattern. -/
def amtChar (c : Char) : Bool := isDigitC c || c == ',' || c == '.'

/-- The capture group `([\d,.]+\s*ETB)` of the amount pattern. -/
def amountGrp : RE := .cat (.plusCls amtChar) (.cat (.starCls wsChar) (litRE "ETB".data))

/-! ### Field extractors of `transaction-parser.ts` -/

/-- Shared shape of `extractReferenceNumber`, `extractTotalAmount`,
`extractReceiver` and `extractPayer`: `match?.[1]?.trim() || null` — the
trimmed capture, with the (falsy) empty string collapsed to `null`. -/
def extractTrimOrNull (pre grp : RE) (text : List Char) : Option (List Char) :=
  match reSearch pre grp text with
  | none => none
  | some c => if jsTrim c = [] then none else some (jsTrim c)

/-- Source `extractReferenceNumber`. -/
def extractReferenceNumber (text : List Char) : Option (List Char) :=
  extractTrimOrNull referencePre dotPlusGrp text

/-- Source `extractTotalAmount`. -/
def extractTotalAmount (text : List Char) : Option (List Char) :=
  extractTrimOrNull totalAmountPre amountGrp text

/-- Source `extractReceiver`. -/
def extractReceiver (text : List Char) : Option (List Char) :=
  extractTrimOrNull receiverPre dotPlusGrp text

/-- Source `extractPayer`. -/
def extractPayer (text : List Char) : Option (List Char) :=
  extractTrimOrNull payerPre dotPlusGrp text

/-! ### JavaScript `new Date(string)` for the captured timestamp texts

The capture of the payment-date pattern always has the shape
`M/D/YYYY, h:MM:SS AM|PM`.  `new Date` on such a string *never throws*: it
returns a `Date` object, which is an *Invalid Date* (`NaN` time value)
when a component is out of range.  The model keeps the parsed calendar
components rather than an epoch value (the components-to-milliseconds
conversion is local-timezone dependent and abstracted as a parameter of
the pipeline); `none` stands for Invalid Date. -/

/-- Calendar components of a parsed date string. -/
structure DateParts where
  month : Nat
  day : Nat
  year : Nat
  hour : Nat
  minute : Nat
  second : Nat
  pm : Bool
  deriving DecidableEq

/-- A JavaScript `Date` object: either a valid date or Invalid Date. -/
def JsDate := Option DateParts

instance : DecidableEq JsDate :=
  inferInstanceAs (DecidableEq (Option DateParts))

/-- Numeric value of a digit string. -/
def digitsVal (s : List Char) : Nat := s.foldl (fun a c => 10 * a + (c.toNat - 48)) 0

/-- Consume a maximal nonempty run of digits. -/
def parseNat (s : List Char) : Option (Nat × List Char) :=
  let ds := s.takeWhile isDigitC
  if ds = [] then none else some (digitsVal ds, s.drop ds.length)

/-- Consume an expected literal character. -/
def parseLit (c : Char) (s : List Char) : Option (List Char) :=
  match s with
  | [] => none
  | d :: ds => if d == c then some ds else none

/-- Parse `M/D/YYYY, h:MM:SS AM|PM` into its components. -/
def parseDateString (s : List Char) : Option DateParts :=
  match parseNat s with
  | none => none
  | some (mo, s) =>
  match parseLit '/' s with
  | none => none
  | some s =>
  match parseNat s with
  | none => none
  | some (dy, s) =>
  match parseLit '/' s with
  | none => none
  | some s =>
  match parseNat s with
  | none => none
  | some (yr, s) =>
  match parseLit ',' s with
  | none => none
  | some s =>
  match parseLit ' ' s with
  | none => none
  | some s =>
  match parseNat s with
  | none => none
  | some (hr, s) =>
  match parseLit ':' s with
  | none => none
  | some s =>
  match parseNat s with
  | none => none
  | some (mi, s) =>
  match parseLit ':' s with
  | none => none
  | some s =>
  match parseNat s with
  | none => none
  | some (se, s) =>
  match parseLit ' ' s with
  | none => none
  | some s =>
  match s with
  | ['A', 'M'] => some ⟨mo, dy, yr, hr, mi, se, false⟩
  | ['P', 'M'] => some ⟨mo, dy, yr, hr, mi, se, true⟩
  | _ => none

/-- Range validity enforced by the host's legacy date parser for this
format: month 1–12, day 1–31, meridian hour 1–12, minute and second 0–59.
Out-of-range components make `new Date` yield Invalid Date. -/
def datePartsValid (p : DateParts) : Bool :=
  1 ≤ p.month && p.month ≤ 12 && 1 ≤ p.day && p.day ≤ 31 &&
  1 ≤ p.hour && p.hour ≤ 12 && p.minute ≤ 59 && p.second ≤ 59

/-- JavaScript `new Date(s)` on a captured timestamp text: a valid `Date`
when the string parses with in-range components, Invalid Date otherwise.
It never throws, so the `try`/`catch` around it in the source is dead. -/
def jsNewDate (s : List Char) : JsDate :=
  match parseDateString s with
  | none => none
  | some p => if datePartsValid p then some p else none

/-- Source `extractPaymentDateTime`: `null` when the pattern does not
match, otherwise the `Date` built from the trimmed capture — possibly an
Invalid Date, since `new Date` does not throw on unparseable input. -/
def extractPaymentDateTime (text : List Char) : Option JsDate :=
  match reSearch paymentDatePre dateGrp text with
  | none => none
  | some c => some (jsNewDate (jsTrim c))

/-! ### Transaction age validation (`transaction-parser.ts`) -/

/-- Milliseconds per hour, dayjs's divisor for `diff(_, 'hour')`. -/
def msPerHour : Int := 3600000

/-- The dayjs age in whole hours: the millisecond difference divided by an
hour, truncated toward zero (dayjs `absFloor`), hence `Int.tdiv`. -/
def hoursDiff (nowMs tMs : Int) : Int := Int.tdiv (nowMs - tMs) msPerHour

/-- Source `validateTransactionAge`: fails iff the truncated hour age
strictly exceeds the threshold. -/
def validateTransactionAge (nowMs tMs maxAgeHours : Int) : Except Err Unit :=
  if hoursDiff nowMs tMs > maxAgeHours then .error .TransactionTooOld else .ok ()

/-- Age check as executed by `extractTransactionDetails` on the record's
`Date` field: a valid date is converted to epoch milliseconds by the
environment-dependent `dateToMs`; for an Invalid Date the dayjs difference
is `NaN`, `NaN > maxAgeHours` is false, so no error is raised. -/
def validateAgeOnJsDate (nowMs : Int) (dateToMs : DateParts → Int)
    (d : JsDate) (maxAgeHours : Int) : Except Err Unit :=
  match d with
  | none => .ok ()
  | some p => validateTransactionAge nowMs (dateToMs p) maxAgeHours

/-! ### The transaction record and the orchestrator -/

/-- Source interface `TransactionDetails` (types.ts). -/
structure TransactionDetails where
  transactionRefNumber : Option (List Char)
  paymentDateTime : Option JsDate
  totalAmountDebited : Option (List Char)
  receiver : Option (List Char)
  payer : Option (List Char)
  deriving DecidableEq

/-- Source interface `PaymentVerificationConfig` (types.ts). -/
structure Config where
  cbeAccountNumber : List Char
  maxTransactionAgeHours : Option Int
  rejectUnauthorized : Option Bool

/-- Source `extractTransactionDetails`: extract the five fields, require
the reference number and the payment date (the string field is never the
empty string, and an Invalid Date is a truthy object, so the JavaScript
falsiness tests coincide with `none` tests), then validate the age with
`config.maxTransactionAgeHours ?? 24`. -/
def extractTransactionDetails (nowMs : Int) (dateToMs : DateParts → Int)
    (text : List Char) (config : Config) : Except Err TransactionDetails :=
  let details : TransactionDetails :=
    { transactionRefNumber := extractReferenceNumber text
      paymentDateTime := extractPaymentDateTime text
      totalAmountDebited := extractTotalAmount text
      receiver := extractReceiver text
      payer := extractPayer text }
  if details.transactionRefNumber = none then .error .MissingReferenceNumber
  else if details.paymentDateTime = none then .error .MissingPaymentTimestamp
  else
    match details.paymentDateTime with
    | none => .error .MissingPaymentTimestamp
    | some d =>
      match validateAgeOnJsDate nowMs dateToMs d
        (config.maxTransactionAgeHours.getD DEFAULT_MAX_TRANSACTION_AGE_HOURS) with
      | .error e => .error e
      | .ok _ => .ok details

/-- Source `verifyDirectDeposit`, with the external document-retrieval
collaborator (`extractTextFromPdfUrl`) passed in as the function `fetch`:
validate the input, require a nonempty account number, build the PDF URL,
fetch the text, extract and validate the details.  All failures, the
collaborator's included, propagate unchanged. -/
def verifyDirectDeposit (fetch : List Char → Except Err (List Char))
    (nowMs : Int) (dateToMs : DateParts → Int)
    (input : List Char) (config : Config) : Except Err TransactionDetails :=
  match validateInput input with
  | .error e => .error e
  | .ok _ =>
    if config.cbeAccountNumber = [] then .error .MissingAccountNumber
    else
      match constructPdfUrl input config.cbeAccountNumber with
      | .error e => .error e
      | .ok pdfUrl =>
        match fetch pdfUrl with
        | .error e => .error e
        | .ok pdfText => extractTransactionDetails nowMs dateToMs pdfText config

/-! ### Lemmas about the fixed-length token engine -/

theorem matchHere_length {p : List Tok} {s : List Char} (h : matchHere p s = true) :
    p.length ≤ s.length := by
  induction p generalizing s with
  | nil => exact Nat.zero_le _
  | cons t ts ih =>
    cases s with
    | nil => simp [matchHere] at h
    | cons c cs =>
      simp only [matchHere, Bool.and_eq_true] at h
      simpa using Nat.succ_le_succ (ih h.2)

theorem matchHere_append_iff {p q : List Tok} {s : List Char} :
    matchHere (p ++ q) s = true ↔
      matchHere p s = true ∧ matchHere q (s.drop p.length) = true := by
  induction p generalizing s with
  | nil => simp [matchHere]
  | cons t ts ih =>
    cases s with
    | nil => simp [matchHere]
    | cons c cs =>
      simp only [List.cons_append, matchHere, Bool.and_eq_true, List.length_cons,
        List.drop_succ_cons, List.append_eq, ih, and_assoc]

theorem matchHere_take_append {p : List Tok} {s : List Char} (t : List Char)
    (h : matchHere p s = true) : matchHere p (s.take p.length ++ t) = true := by
  induction p generalizing s with
  | nil => simp [matchHere]
  | cons tok ts ih =>
    cases s with
    | nil => simp [matchHere] at h
    | cons c cs =>
      simp only [matchHere, Bool.and_eq_true] at h
      simpa only [List.length_cons, List.take_succ_cons, List.cons_append, matchHere,
        Bool.and_eq_true] using ⟨h.1, ih h.2⟩

theorem testRegex_iff {p : List Tok} {s : List Char} :
    testRegex p s = true ↔ ∃ i, matchHere p (s.drop i) = true := by
  induction s with
  | nil =>
    simp only [testRegex, List.drop_nil]
    exact ⟨fun h => ⟨0, h⟩, fun ⟨_, h⟩ => h⟩
  | cons c cs ih =>
    simp only [testRegex, Bool.or_eq_true, ih]
    constructor
    · rintro (h | ⟨i, h⟩)
      · exact ⟨0, h⟩
      · exact ⟨i + 1, by simpa using h⟩
    · rintro ⟨i, h⟩
      cases i with
      | zero => exact Or.inl (by simpa using h)
      | succ j => exact Or.inr ⟨j, by simpa using h⟩

theorem matchHere_of_testRegex_at {p : List Tok} {s : List Char} (i : Nat)
    (h : matchHere p (s.drop i) = true) : testRegex p s = true :=
  testRegex_iff.mpr ⟨i, h⟩

theorem matchHere_replicate_alnum {k : Nat} {s : List Char}
    (hk : k ≤ s.length) (hall : s.all isAlnumC = true) :
    matchHere (List.replicate k Tok.alnum) s = true := by
  induction k generalizing s with
  | zero => simp [matchHere]
  | succ m ih =>
    cases s with
    | nil => simp at hk
    | cons c cs =>
      simp only [List.all_cons, Bool.and_eq_true] at hall
      simp only [List.replicate_succ, matchHere, tokMatch, Bool.and_eq_true]
      exact ⟨hall.1, ih (Nat.le_of_succ_le_succ (by simpa using hk)) hall.2⟩

theorem urlRegex_length : TRANSACTION_URL_REGEX.length = 52 := by decide

theorem urlFixed_length : urlFixedToks.length = 34 := by decide

theorem refRegex_length : TRANSACTION_REFERENCE_REGEX.length = 12 := by decide

theorem testRegex_length {p : List Tok} {s : List Char} (h : testRegex p s = true) :
    p.length ≤ s.length := by
  obtain ⟨i, hm⟩ := testRegex_iff.mp h
  exact le_trans (matchHere_length hm) (by simp)

/-! ### The age validator: claims C1 and C10 -/

/-- C1: for a present payment timestamp and a positive `maxAgeHours`, the
validator computes the age as the truncated whole-hour difference and
fails with `TransactionTooOld` exactly when that integer strictly exceeds
`maxAgeHours`; a timestamp exactly `maxAgeHours` in the past is accepted,
one a further hour older is rejected. -/
theorem c1_age_threshold (nowMs tMs maxAgeHours : Int) (_hpos : 0 < maxAgeHours) :
    (validateTransactionAge nowMs tMs maxAgeHours = .error .TransactionTooOld ↔
      Int.tdiv (nowMs - tMs) msPerHour > maxAgeHours) ∧
    (tMs = nowMs - maxAgeHours * msPerHour →
      validateTransactionAge nowMs tMs maxAgeHours = .ok ()) ∧
    (tMs = nowMs - (maxAgeHours + 1) * msPerHour →
      validateTransactionAge nowMs tMs maxAgeHours = .error .TransactionTooOld) := by
  refine ⟨?_, ?_, ?_⟩
  · unfold validateTransactionAge hoursDiff
    constructor
    · intro h
      by_contra hgt
      simp [hgt] at h
    · intro h
      simp [h]
  · intro ht
    have hd : hoursDiff nowMs tMs = maxAgeHours := by
      unfold hoursDiff
      rw [ht]
      have : nowMs - (nowMs - maxAgeHours * msPerHour) = maxAgeHours * msPerHour := by ring
      rw [this, Int.mul_tdiv_cancel _ (by norm_num [msPerHour])]
    unfold validateTransactionAge
    simp [hd]
  · intro ht
    have hd : hoursDiff nowMs tMs = maxAgeHours + 1 := by
      unfold hoursDiff
      rw [ht]
      have : nowMs - (nowMs - (maxAgeHours + 1) * msPerHour) = (maxAgeHours + 1) * msPerHour := by
        ring
      rw [this, Int.mul_tdiv_cancel _ (by norm_num [msPerHour])]
    unfold validateTransactionAge
    simp [hd]

/-- Witness for C1 at concrete inputs. -/
theorem c1_age_threshold_witness :
    (0 : Int) < 24 ∧
    validateTransactionAge 1000000000000 (1000000000000 - 24 * msPerHour) 24 = .ok () ∧
    validateTransactionAge 1000000000000 (1000000000000 - 25 * msPerHour) 24 =
      .error .TransactionTooOld := by
  refine ⟨by norm_num, (c1_age_threshold 1000000000000 _ 24 (by norm_num)).2.1 rfl, ?_⟩
  have h := (c1_age_threshold 1000000000000 (1000000000000 - 25 * msPerHour) 24 (by norm_num)).2.2
  exact h (by ring)

/-- C10: a future-dated payment timestamp (at or after now) is never
rejected as too old — the truncated hour difference is nonpositive, hence
never strictly above a positive threshold. -/
theorem c10_future_dates_accepted (nowMs tMs maxAgeHours : Int)
    (hpos : 0 < maxAgeHours) (hfuture : nowMs ≤ tMs) :
    validateTransactionAge nowMs tMs maxAgeHours = .ok () := by
  have hd : hoursDiff nowMs tMs ≤ 0 := by
    unfold hoursDiff
    have h1 : nowMs - tMs = -(tMs - nowMs) := by ring
    rw [h1, Int.neg_tdiv]
    have h2 : 0 ≤ Int.tdiv (tMs - nowMs) msPerHour :=
      Int.tdiv_nonneg (by omega) (by norm_num [msPerHour])
    omega
  unfold validateTransactionAge
  have : ¬ hoursDiff nowMs tMs > maxAgeHours := by omega
  simp [this]

/-- Witness for C10 at concrete inputs. -/
theorem c10_future_dates_accepted_witness :
    (0 : Int) < 24 ∧ (1000000000000 : Int) ≤ 1000000000001 ∧
    validateTransactionAge 1000000000000 1000000000001 24 = .ok () :=
  ⟨by norm_num, by norm_num,
    c10_future_dates_accepted 1000000000000 1000000000001 24 (by norm_num) (by norm_num)⟩

/-! ### Spec-side formulations of the URL builder's slicing -/

/-- The last `n` characters of a string (the whole string when shorter). -/
def lastN (n : Nat) (s : List Char) : List Char := (s.reverse.take n).reverse

/-- All characters but the last `n` (empty when the string is shorter). -/
def allButLastN (n : Nat) (s : List Char) : List Char := (s.reverse.drop n).reverse

theorem jsSliceLast8_eq (s : List Char) : jsSliceLast8 s = lastN 8 s := by
  unfold jsSliceLast8 lastN
  rw [List.reverse_take]
  simp

theorem jsSliceDropLast8_eq (s : List Char) : jsSliceDropLast8 s = allButLastN 8 s := by
  unfold jsSliceDropLast8 allButLastN
  rw [List.reverse_drop]
  simp

theorem testRegex_of_matchHere {p : List Tok} {s : List Char}
    (h : matchHere p s = true) : testRegex p s = true :=
  testRegex_iff.mpr ⟨0, by simpa using h⟩

theorem refTest_of_exact {s : List Char}
    (h : matchExact TRANSACTION_REFERENCE_REGEX s = true) : refTest s = true := by
  unfold matchExact at h
  simp only [Bool.and_eq_true] at h
  exact testRegex_of_matchHere h.2

theorem length_of_refExact {s : List Char}
    (h : matchExact TRANSACTION_REFERENCE_REGEX s = true) : s.length = 12 := by
  unfold matchExact at h
  simp only [Bool.and_eq_true, beq_iff_eq] at h
  rw [h.1, refRegex_length]

theorem urlTest_eq_false_of_short {s : List Char} (h : s.length < 52) :
    urlTest s = false := by
  by_contra hc
  have : urlTest s = true := by
    cases hu : urlTest s
    · exact absurd hu hc
    · rfl
  have hlen := testRegex_length this
  rw [urlRegex_length] at hlen
  omega

/-! ### Claim C4: the URL builder -/

/-- C4: for classified inputs, `constructPdfUrl` returns the input minus
its last 8 characters followed by the last 8 characters of the account
number when the input is URL-shaped, and the base URL, the literal query
key, the bare reference code and the last 8 account characters when the
input is a bare (exactly matching) reference code; for an account number
shorter than 8 characters, the last 8 characters are the whole string. -/
theorem c4_construct_pdf_url (input acct : List Char) :
    (urlTest input = true →
      constructPdfUrl input acct = .ok (allButLastN 8 input ++ lastN 8 acct)) ∧
    (matchExact TRANSACTION_REFERENCE_REGEX input = true →
      constructPdfUrl input acct =
        .ok (CBE_VERIFICATION_BASE_URL ++ "/?id=".data ++ input ++ lastN 8 acct)) ∧
    (acct.length < 8 → lastN 8 acct = acct) := by
  refine ⟨?_, ?_, ?_⟩
  · intro hu
    unfold constructPdfUrl
    rw [hu]
    simp [jsSliceLast8_eq, jsSliceDropLast8_eq]
  · intro hr
    have h1 : urlTest input = false :=
      urlTest_eq_false_of_short (by rw [length_of_refExact hr]; omega)
    have h2 : refTest input = true := refTest_of_exact hr
    unfold constructPdfUrl
    rw [h1, h2]
    simp [jsSliceLast8_eq]
  · intro hshort
    unfold lastN
    rw [List.take_of_length_le (by simpa using Nat.le_of_lt hshort)]
    exact List.reverse_reverse acct

/-- Witness for C4: a URL-shaped input, a bare reference input, and a
short account number, all concrete. -/
theorem c4_construct_pdf_url_witness :
    urlTest "https://apps.cbe.com.et:100/?id=FT25200VMC5N56279011".data = true ∧
    constructPdfUrl "https://apps.cbe.com.et:100/?id=FT25200VMC5N56279011".data "88961473".data =
      .ok (allButLastN 8 "https://apps.cbe.com.et:100/?id=FT25200VMC5N56279011".data ++
        lastN 8 "88961473".data) ∧
    matchExact TRANSACTION_REFERENCE_REGEX "FT0123456789".data = true ∧
    constructPdfUrl "FT0123456789".data "123".data =
      .ok (CBE_VERIFICATION_BASE_URL ++ "/?id=".data ++ "FT0123456789".data ++
        lastN 8 "123".data) ∧
    "123".data.length < 8 ∧ lastN 8 "123".data = "123".data :=
  ⟨by decide,
   (c4_construct_pdf_url "https://apps.cbe.com.et:100/?id=FT25200VMC5N56279011".data
     "88961473".data).1 (by decide),
   by decide,
   (c4_construct_pdf_url "FT0123456789".data "123".data).2.1 (by decide),
   by decide,
   (c4_construct_pdf_url "FT0123456789".data "123".data).2.2 (by decide)⟩

/-! ### Claim C5: empty input fails before any retrieval -/

/-- C5: for the empty input and every configuration, `verifyDirectDeposit`
fails with `EmptyInput`, and the result does not depend on the retrieval
collaborator at all (the statement holds for *every* `fetch`), so no
network access can have occurred. -/
theorem c5_empty_input_no_fetch (fetch : List Char → Except Err (List Char))
    (nowMs : Int) (dateToMs : DateParts → Int) (config : Config) :
    verifyDirectDeposit fetch nowMs dateToMs [] config = .error .EmptyInput := rfl

/-! ### Claim C9: unescaped dots in the URL pattern -/

/-- C9: an input whose host portion replaces the dots of
`apps.cbe.com.et` by `X`, `Y`, `Z` is still accepted as URL-shaped (the
dots of the pattern are unescaped and match any character), passes input
validation, and its URL — last 8 characters replaced by the account
suffix — is handed verbatim to the retrieval collaborator (here a `fetch`
that records the URL it is invoked with). -/
theorem c9_unescaped_dots :
    urlTest "https://appsXcbeYcomZet:100/?id=FT25200VMC5N56279011".data = true ∧
    validateInput "https://appsXcbeYcomZet:100/?id=FT25200VMC5N56279011".data = .ok () ∧
    verifyDirectDeposit (fun url => .error (.retrieval url)) 0 (fun _ => 0)
      "https://appsXcbeYcomZet:100/?id=FT25200VMC5N56279011".data
      ⟨"88961473".data, none, none⟩ =
      .error (.retrieval "https://appsXcbeYcomZet:100/?id=FT25200VMC5N88961473".data) := by
  refine ⟨by decide, by decide, by decide⟩

/-! ### Claim C7: round-trip classification of built URLs -/

/-- Core of the round trip: replacing the last 8 characters of a string
that contains a URL-pattern match by 8 alphanumeric characters leaves a
URL-pattern match in place (either the original occurrence is untouched,
or its tail — which lies inside the 18-alphanumerics part — is replaced
by fresh alphanumerics). -/
theorem urlTest_replace_last8 {input a8 : List Char}
    (hu : urlTest input = true) (ha8len : a8.length = 8)
    (ha : a8.all isAlnumC = true) :
    urlTest (input.take (input.length - 8) ++ a8) = true := by
  obtain ⟨i, hm⟩ := testRegex_iff.mp hu
  have hslen : (input.drop i).length = input.length - i := by simp
  have hL : 52 ≤ input.length - i := by
    have := matchHere_length hm
    rw [urlRegex_length] at this
    omega
  set L := input.length with hLdef
  have hiL : i ≤ L - 8 := by omega
  apply matchHere_of_testRegex_at i
  have hdrop : (input.take (L - 8) ++ a8).drop i =
      (input.drop i).take (L - 8 - i) ++ a8 := by
    rw [List.drop_append_eq_append_drop]
    have h1 : (input.take (L - 8)).length = L - 8 := by
      simp only [List.length_take]
      omega
    rw [h1, Nat.sub_eq_zero_of_le hiL, List.drop_zero, List.drop_take]
  rw [hdrop]
  set s := input.drop i with hsdef
  set m := L - 8 - i with hmdef
  by_cases hcase : 52 ≤ m
  · have hsplit : s.take m = s.take 52 ++ (s.drop 52).take (m - 52) := by
      have h52 := List.take_add s 52 (m - 52)
      rwa [show 52 + (m - 52) = m from by omega] at h52
    rw [hsplit, List.append_assoc]
    have := matchHere_take_append ((s.drop 52).take (m - 52) ++ a8) hm
    rwa [urlRegex_length] at this
  · have hmlen : m ≤ 52 := by omega
    have hms : m ≤ s.length := by omega
    have htk : (TRANSACTION_URL_REGEX.take m).length = m := by
      simp only [List.length_take, urlRegex_length]
      omega
    have hsp := List.take_append_drop m TRANSACTION_URL_REGEX
    rw [← hsp] at hm
    obtain ⟨h1, h2⟩ := matchHere_append_iff.mp hm
    rw [← hsp]
    apply matchHere_append_iff.mpr
    constructor
    · have := matchHere_take_append a8 h1
      rwa [htk] at this
    · rw [htk]
      have hd : (s.take m ++ a8).drop m = a8 := by
        rw [List.drop_append_eq_append_drop]
        have : (s.take m).length = m := by
          simp only [List.length_take]
          omega
        rw [this, Nat.sub_self, List.drop_zero, List.drop_take, Nat.sub_self,
          List.take_zero, List.nil_append]
      rw [hd]
      have hdropP : TRANSACTION_URL_REGEX.drop m = List.replicate (52 - m) Tok.alnum := by
        show (urlFixedToks ++ List.replicate 18 Tok.alnum).drop m = _
        rw [List.drop_append_eq_append_drop]
        have hf : urlFixedToks.length ≤ m := by rw [urlFixed_length]; omega
        rw [List.drop_eq_nil_of_le hf, List.drop_replicate, List.nil_append, urlFixed_length]
        congr 1
        omega
      rw [hdropP]
      exact matchHere_replicate_alnum (by omega) ha

/-- C7 fails as stated for arbitrary account numbers: for an exactly
URL-shaped input and the 3-character account number `123`, the built URL
ends in only three (alphanumeric) characters after the truncated pattern
tail, and is no longer classified as URL-shaped. -/
theorem c7_counterexample :
    urlTest "https://apps.cbe.com.et:100/?id=FT25200VMC5N56279011".data = true ∧
    constructPdfUrl "https://apps.cbe.com.et:100/?id=FT25200VMC5N56279011".data "123".data =
      .ok (jsSliceDropLast8 "https://apps.cbe.com.et:100/?id=FT25200VMC5N56279011".data ++
        jsSliceLast8 "123".data) ∧
    urlTest (jsSliceDropLast8 "https://apps.cbe.com.et:100/?id=FT25200VMC5N56279011".data ++
      jsSliceLast8 "123".data) = false := by
  refine ⟨by decide, by decide, by decide⟩

/-- C7 amended: for every input classified as URL-shaped and every
account number with at least 8 characters whose last 8 characters are all
alphanumeric (in particular any valid digits-only account number), the
URL built by `constructPdfUrl` is itself still classified as URL-shaped. -/
theorem c7_roundtrip_amended (input acct : List Char)
    (hu : urlTest input = true) (hlen : 8 ≤ acct.length)
    (ha : (jsSliceLast8 acct).all isAlnumC = true) :
    constructPdfUrl input acct = .ok (jsSliceDropLast8 input ++ jsSliceLast8 acct) ∧
    urlTest (jsSliceDropLast8 input ++ jsSliceLast8 acct) = true := by
  constructor
  · unfold constructPdfUrl
    rw [hu, if_pos rfl]
  · have ha8len : (jsSliceLast8 acct).length = 8 := by
      unfold jsSliceLast8
      simp only [List.length_drop]
      omega
    exact urlTest_replace_last8 hu ha8len ha

/-- Witness for C7 amended at a concrete URL input and account number. -/
theorem c7_roundtrip_amended_witness :
    urlTest "https://apps.cbe.com.et:100/?id=FT25200VMC5N56279011".data = true ∧
    8 ≤ "88961473".data.length ∧
    (jsSliceLast8 "88961473".data).all isAlnumC = true ∧
    urlTest (jsSliceDropLast8 "https://apps.cbe.com.et:100/?id=FT25200VMC5N56279011".data ++
      jsSliceLast8 "88961473".data) = true :=
  ⟨by decide, by decide, by decide,
    (c7_roundtrip_amended "https://apps.cbe.com.et:100/?id=FT25200VMC5N56279011".data
      "88961473".data (by decide) (by decide) (by decide)).2⟩

/-! ### Claim C2: classification of URL-shaped inputs -/

/-- C2 fails as stated: the URL regex is unanchored, so a string whose
*full* text does not conform to the URL shape (here one with a stray
leading `X`) still tests as URL-shaped and is handled by the URL branch
of `constructPdfUrl`. -/
theorem c2_counterexample :
    urlTest "Xhttps://apps.cbe.com.et:100/?id=FT25200VMC5N56279011".data = true ∧
    matchExact TRANSACTION_URL_REGEX
      "Xhttps://apps.cbe.com.et:100/?id=FT25200VMC5N56279011".data = false ∧
    validateInput "Xhttps://apps.cbe.com.et:100/?id=FT25200VMC5N56279011".data = .ok () ∧
    constructPdfUrl "Xhttps://apps.cbe.com.et:100/?id=FT25200VMC5N56279011".data
      "88961473".data =
      .ok (jsSliceDropLast8 "Xhttps://apps.cbe.com.et:100/?id=FT25200VMC5N56279011".data ++
        jsSliceLast8 "88961473".data) := by
  refine ⟨by decide, by decide, by decide, by decide⟩

/-- C2 amended: classification treats the input as URL-shaped iff *some
substring* of it conforms exactly to the URL shape (the pattern is
unanchored); a nonempty string satisfying neither shape fails with
`InvalidInputFormat`; a string satisfying the URL shape is always handled
by the URL branch of the builder, regardless of any reference-shaped
substring. -/
theorem c2_classification_amended (s : List Char) :
    (urlTest s = true ↔
      ∃ i, matchExact TRANSACTION_URL_REGEX ((s.drop i).take 52) = true) ∧
    (s ≠ [] → refTest s = false → urlTest s = false →
      validateInput s = .error .InvalidInputFormat) ∧
    (urlTest s = true → ∀ acct,
      constructPdfUrl s acct = .ok (jsSliceDropLast8 s ++ jsSliceLast8 acct)) := by
  refine ⟨⟨?_, ?_⟩, ?_, ?_⟩
  · intro h
    obtain ⟨i, hm⟩ := testRegex_iff.mp h
    refine ⟨i, ?_⟩
    have hlen : 52 ≤ (s.drop i).length := by
      have := matchHere_length hm
      rwa [urlRegex_length] at this
    have hmt := matchHere_take_append [] hm
    rw [List.append_nil, urlRegex_length] at hmt
    unfold matchExact
    rw [urlRegex_length]
    simp only [Bool.and_eq_true, beq_iff_eq, List.length_take]
    exact ⟨by omega, hmt⟩
  · rintro ⟨i, he⟩
    unfold matchExact at he
    simp only [Bool.and_eq_true, beq_iff_eq] at he
    have hm := matchHere_take_append ((s.drop i).drop 52) he.2
    rw [urlRegex_length] at hm
    rw [List.take_take, Nat.min_self, List.take_append_drop] at hm
    exact testRegex_iff.mpr ⟨i, hm⟩
  · intro hne hr hu
    unfold validateInput
    rw [if_neg hne, hr, hu]
    simp
  · intro hu acct
    unfold constructPdfUrl
    rw [hu, if_pos rfl]

/-- Witness for C2 amended: a string matching neither shape fails with
`InvalidInputFormat`, and a URL-shaped string goes to the URL branch. -/
theorem c2_classification_amended_witness :
    "hello".data ≠ ([] : List Char) ∧
    refTest "hello".data = false ∧ urlTest "hello".data = false ∧
    validateInput "hello".data = .error .InvalidInputFormat ∧
    urlTest "https://apps.cbe.com.et:100/?id=FT00000000000000000A".data = true ∧
    constructPdfUrl "https://apps.cbe.com.et:100/?id=FT00000000000000000A".data
      "00012345678".data =
      .ok (jsSliceDropLast8 "https://apps.cbe.com.et:100/?id=FT00000000000000000A".data ++
        jsSliceLast8 "00012345678".data) :=
  ⟨by decide, by decide, by decide,
   (c2_classification_amended "hello".data).2.1 (by decide) (by decide) (by decide),
   by decide,
   (c2_classification_amended
     "https://apps.cbe.com.et:100/?id=FT00000000000000000A".data).2.2 (by decide)
     "00012345678".data⟩

/-! ### Lemmas about the backtracking engine -/

theorem mem_backtracks {s : List Char} {lo n : Nat} {r : List Char}
    (h : r ∈ backtracks s lo n) : ∃ k, lo ≤ k ∧ k ≤ n ∧ r = s.drop k := by
  unfold backtracks at h
  obtain ⟨j, hj, he⟩ := List.mem_map.mp h
  rw [List.mem_range] at hj
  exact ⟨n - j, by omega, by omega, he.symm⟩

theorem leadRun_le (f : Char → Bool) (s : List Char) : leadRun f s ≤ s.length :=
  List.Sublist.length_le (List.takeWhile_sublist f)

theorem take_all_of_le_leadRun {f : Char → Bool} {s : List Char} {m : Nat}
    (h : m ≤ leadRun f s) : (s.take m).all f = true := by
  induction s generalizing m with
  | nil => simp [List.take_nil]
  | cons c cs ih =>
    cases m with
    | zero => simp
    | succ m' =>
      by_cases hc : f c
      · have hl : leadRun f (c :: cs) = leadRun f cs + 1 := by
          simp [leadRun, List.takeWhile_cons, hc]
        rw [hl] at h
        simp only [List.take_succ_cons, List.all_cons, Bool.and_eq_true]
        exact ⟨hc, ih (by omega)⟩
      · have hl : leadRun f (c :: cs) = 0 := by
          simp [leadRun, List.takeWhile_cons, hc]
        omega

/-- All single-character classes mentioned by a pattern imply `P`. -/
def REclasses (P : Char → Bool) : RE → Prop
  | .eps => True
  | .cls f => ∀ c, f c = true → P c = true
  | .cat a b => REclasses P a ∧ REclasses P b
  | .alt a b => REclasses P a ∧ REclasses P b
  | .starCls f => ∀ c, f c = true → P c = true
  | .plusCls f => ∀ c, f c = true → P c = true
  | .repCls f _ _ => ∀ c, f c = true → P c = true

theorem take_all_imp {P f : Char → Bool} {s : List Char} {k : Nat}
    (hpf : ∀ c, f c = true → P c = true) (h : k ≤ leadRun f s) :
    (s.take k).all P = true := by
  have hf := take_all_of_le_leadRun h
  rw [List.all_eq_true] at hf ⊢
  exact fun x hx => hpf x (hf x hx)

/-- Every remainder produced by `runs` is obtained by consuming a prefix
whose characters all satisfy any bound `P` on the pattern's classes. -/
theorem runs_consumed {P : Char → Bool} (g : RE) :
    ∀ s r : List Char, REclasses P g → r ∈ runs g s →
      ∃ k, k ≤ s.length ∧ r = s.drop k ∧ (s.take k).all P = true := by
  induction g with
  | eps =>
    intro s r _ h
    simp only [runs, List.mem_singleton] at h
    exact ⟨0, Nat.zero_le _, by simp [h], by simp⟩
  | cls f =>
    intro s r hg h
    cases s with
    | nil => simp [runs] at h
    | cons c cs =>
      simp only [runs] at h
      by_cases hc : f c
      · rw [if_pos hc] at h
        simp only [List.mem_singleton] at h
        subst h
        refine ⟨1, by simp, rfl, ?_⟩
        simp [hg c hc]
      · rw [if_neg hc] at h
        simp at h
  | cat a b iha ihb =>
    intro s r hg h
    simp only [runs] at h
    obtain ⟨r1, hr1, hr⟩ := List.mem_flatMap.mp h
    obtain ⟨k1, hk1, he1, hall1⟩ := iha s r1 hg.1 hr1
    subst he1
    obtain ⟨k2, hk2, he2, hall2⟩ := ihb (s.drop k1) r hg.2 hr
    subst he2
    refine ⟨k1 + k2, ?_, ?_, ?_⟩
    · have : (s.drop k1).length = s.length - k1 := by simp
      omega
    · rw [List.drop_drop]
    · rw [List.take_add]
      simp only [List.all_append, Bool.and_eq_true]
      exact ⟨hall1, hall2⟩
  | alt a b iha ihb =>
    intro s r hg h
    simp only [runs, List.mem_append] at h
    rcases h with h | h
    · exact iha s r hg.1 h
    · exact ihb s r hg.2 h
  | starCls f =>
    intro s r hg h
    simp only [runs] at h
    obtain ⟨k, _, hk, he⟩ := mem_backtracks h
    exact ⟨k, le_trans hk (leadRun_le f s), he, take_all_imp hg hk⟩
  | plusCls f =>
    intro s r hg h
    simp only [runs] at h
    by_cases hn : leadRun f s = 0
    · rw [if_pos hn] at h
      simp at h
    · rw [if_neg hn] at h
      obtain ⟨k, _, hk, he⟩ := mem_backtracks h
      exact ⟨k, le_trans hk (leadRun_le f s), he, take_all_imp hg hk⟩
  | repCls f lo hi =>
    intro s r hg h
    simp only [runs] at h
    by_cases hn : min (leadRun f s) hi < lo
    · rw [if_pos hn] at h
      simp at h
    · rw [if_neg hn] at h
      obtain ⟨k, _, hk, he⟩ := mem_backtracks h
      have hkr : k ≤ leadRun f s := le_trans hk (Nat.min_le_left _ _)
      exact ⟨k, le_trans hkr (leadRun_le f s), he, take_all_imp hg hkr⟩

theorem matchAt_capture {P : Char → Bool} {pre grp : RE} {s v : List Char}
    (hgrp : REclasses P grp) (h : matchAt pre grp s = some v) : v.all P = true := by
  unfold matchAt at h
  obtain ⟨rem, _, hf⟩ := List.exists_of_findSome?_eq_some h
  cases hh : (runs grp rem).head? with
  | none => rw [hh] at hf; cases hf
  | some rem2 =>
    rw [hh] at hf
    have hv : rem.take (rem.length - rem2.length) = v := Option.some.inj hf
    have hmem : rem2 ∈ runs grp rem := by
      obtain ⟨ys, hys⟩ := List.head?_eq_some_iff.mp hh
      rw [hys]
      exact List.mem_cons_self _ _
    obtain ⟨k, hk, he, hall⟩ := runs_consumed grp rem rem2 hgrp hmem
    subst he
    rw [List.length_drop] at hv
    rw [show rem.length - (rem.length - k) = k from by omega] at hv
    rw [← hv]
    exact hall

theorem reSearch_eq_some {pre grp : RE} {text v : List Char}
    (h : reSearch pre grp text = some v) :
    ∃ i, matchAt pre grp (text.drop i) = some v := by
  induction text with
  | nil => exact ⟨0, h⟩
  | cons c cs ih =>
    unfold reSearch at h
    cases hm : matchAt pre grp (c :: cs) with
    | some w =>
      rw [hm] at h
      refine ⟨0, ?_⟩
      rw [List.drop_zero, hm]
      exact h
    | none =>
      rw [hm] at h
      obtain ⟨i, hi⟩ := ih h
      exact ⟨i + 1, by simpa using hi⟩

theorem reSearch_capture_all {P : Char → Bool} {pre grp : RE} {text v : List Char}
    (hgrp : REclasses P grp) (h : reSearch pre grp text = some v) : v.all P = true := by
  obtain ⟨i, hi⟩ := reSearch_eq_some h
  exact matchAt_capture hgrp hi

/-! ### Lemmas about `jsTrim` -/

theorem jsTrim_all {P : Char → Bool} {v : List Char} (h : v.all P = true) :
    (jsTrim v).all P = true := by
  rw [List.all_eq_true] at h ⊢
  intro x hx
  apply h
  unfold jsTrim at hx
  rw [List.mem_reverse] at hx
  have h1 : x ∈ (v.dropWhile wsChar).reverse :=
    List.Sublist.mem hx (List.dropWhile_sublist wsChar)
  rw [List.mem_reverse] at h1
  exact List.Sublist.mem h1 (List.dropWhile_sublist wsChar)

theorem dropWhile_head_false {p : Char → Bool} {l : List Char} {d : Char} {ds : List Char}
    (h : l.dropWhile p = d :: ds) : p d = false := by
  induction l with
  | nil => simp [List.dropWhile] at h
  | cons c cs ih =>
    rw [List.dropWhile_cons] at h
    by_cases hc : p c
    · rw [if_pos hc] at h
      exact ih h
    · rw [if_neg hc] at h
      injection h with h1 _
      subst h1
      simpa using hc

theorem getLast?_dropWhile {p : Char → Bool} {l : List Char}
    (h : l.dropWhile p ≠ []) : (l.dropWhile p).getLast? = l.getLast? := by
  induction l with
  | nil => simp [List.dropWhile] at h
  | cons c cs ih =>
    rw [List.dropWhile_cons]
    by_cases hc : p c
    · rw [List.dropWhile_cons, if_pos hc] at h
      rw [if_pos hc, ih h]
      cases cs with
      | nil => simp [List.dropWhile] at h
      | cons d ds => simp [List.getLast?_cons_cons]
    · rw [if_neg hc]

theorem jsTrim_ends {v : List Char} (hne : jsTrim v ≠ []) :
    (∀ d, (jsTrim v).head? = some d → wsChar d = false) ∧
    (∀ d, (jsTrim v).getLast? = some d → wsChar d = false) := by
  have hjt : jsTrim v = ((v.dropWhile wsChar).reverse.dropWhile wsChar).reverse := rfl
  have hzne : (v.dropWhile wsChar).reverse.dropWhile wsChar ≠ [] := by
    intro hznil
    apply hne
    rw [hjt, hznil]
    rfl
  constructor
  · intro d hd
    rw [hjt, List.head?_reverse, getLast?_dropWhile hzne, List.getLast?_reverse] at hd
    obtain ⟨ys, hys⟩ := List.head?_eq_some_iff.mp hd
    exact dropWhile_head_false hys
  · intro d hd
    rw [hjt, List.getLast?_reverse] at hd
    obtain ⟨ys, hys⟩ := List.head?_eq_some_iff.mp hd
    exact dropWhile_head_false hys

/-! ### Claim C8: shape of the extracted string fields -/

/-- An extracted string field is either absent or a nonempty string whose
first and last characters are not whitespace. -/
def stringFieldOk : Option (List Char) → Prop
  | none => True
  | some v => v ≠ [] ∧ (∀ d, v.head? = some d → wsChar d = false) ∧
      (∀ d, v.getLast? = some d → wsChar d = false)

theorem extractTrimOrNull_ok (pre grp : RE) (text : List Char) :
    stringFieldOk (extractTrimOrNull pre grp text) := by
  cases h : reSearch pre grp text with
  | none =>
    unfold extractTrimOrNull
    rw [h]
    exact trivial
  | some c =>
    unfold extractTrimOrNull
    rw [h]
    show stringFieldOk (if jsTrim c = [] then none else some (jsTrim c))
    by_cases ht : jsTrim c = []
    · rw [if_pos ht]
      exact trivial
    · rw [if_neg ht]
      exact ⟨ht, (jsTrim_ends ht).1, (jsTrim_ends ht).2⟩

/-- C8: for every raw text, each of the four string fields (reference,
amount, receiver, payer) is either absent or a non-empty string with no
leading or trailing whitespace — a capture that trims to the empty string
yields an absent field (the empty string is falsy), never the empty
string. -/
theorem c8_string_fields_trimmed (text : List Char) :
    stringFieldOk (extractReferenceNumber text) ∧
    stringFieldOk (extractTotalAmount text) ∧
    stringFieldOk (extractReceiver text) ∧
    stringFieldOk (extractPayer text) :=
  ⟨extractTrimOrNull_ok _ _ text, extractTrimOrNull_ok _ _ text,
   extractTrimOrNull_ok _ _ text, extractTrimOrNull_ok _ _ text⟩

/-! ### Claim C6: line confinement of the captures -/

theorem litRE_runs_matchHere {l : List Char} :
    ∀ {s r : List Char}, r ∈ runs (litRE l) s → matchHere (litToks l) s = true := by
  induction l with
  | nil =>
    intro s r _
    simp [litToks, matchHere]
  | cons c cs ih =>
    intro s r h
    cases s with
    | nil => simp [litRE, runs] at h
    | cons d ds =>
      simp only [litRE, runs] at h
      obtain ⟨a, ha, hr⟩ := List.mem_flatMap.mp h
      by_cases hdc : (d == c) = true
      · rw [if_pos hdc] at ha
        simp only [List.mem_singleton] at ha
        subst ha
        have := ih hr
        simp only [litToks, List.map_cons, matchHere, tokMatch, Bool.and_eq_true]
        exact ⟨hdc, this⟩
      · rw [if_neg hdc] at ha
        simp at ha

/-- A successful extraction implies the label occurs in the text. -/
theorem label_of_reSearch {label : List Char} {f : Char → Bool} {grp : RE}
    {text v : List Char}
    (h : reSearch (RE.cat (litRE label) (RE.starCls f)) grp text = some v) :
    testRegex (litToks label) text = true := by
  obtain ⟨i, hi⟩ := reSearch_eq_some h
  unfold matchAt at hi
  obtain ⟨rem, hrem, _⟩ := List.exists_of_findSome?_eq_some hi
  simp only [runs] at hrem
  obtain ⟨r1, hr1, _⟩ := List.mem_flatMap.mp hrem
  exact matchHere_of_testRegex_at i (litRE_runs_matchHere hr1)

theorem digit_dot : ∀ c, isDigitC c = true → dotChar c = true := by
  intro c h
  simp only [isDigitC, Bool.and_eq_true, decide_eq_true_eq] at h
  simp only [dotChar, isLineTerm, Bool.not_eq_true', Bool.or_eq_false_iff,
    decide_eq_false_iff_not]
  omega

theorem REclasses_litRE {P : Char → Bool} {l : List Char} (h : l.all P = true) :
    REclasses P (litRE l) := by
  induction l with
  | nil => exact trivial
  | cons c cs ih =>
    simp only [List.all_cons, Bool.and_eq_true] at h
    exact ⟨fun d hd => by rw [eq_of_beq hd]; exact h.1, ih h.2⟩

theorem REclasses_dot_dotPlusGrp : REclasses dotChar dotPlusGrp :=
  fun _ h => h

theorem REclasses_dot_dateGrp : REclasses dotChar dateGrp :=
  ⟨digit_dot, REclasses_litRE (by decide), digit_dot, REclasses_litRE (by decide),
   digit_dot, REclasses_litRE (by decide), digit_dot, REclasses_litRE (by decide),
   digit_dot, REclasses_litRE (by decide), digit_dot, REclasses_litRE (by decide),
   REclasses_litRE (by decide), REclasses_litRE (by decide)⟩

/-- The text that follows the first occurrence of `label` in the string,
or `none` when the label does not occur. -/
def afterFirst (label : List Char) : List Char → Option (List Char)
  | [] => if matchHere (litToks label) [] then some [] else none
  | c :: cs =>
    if matchHere (litToks label) (c :: cs) then some ((c :: cs).drop label.length)
    else afterFirst label cs

/-- C6 fails as stated: in `"Receiver\nJohn"` the receiver label is
followed on *its own* line by nothing (the line remainder after the label
is empty), yet the extractor returns `John`, taken from the *next* line —
the `\s*` between label and capture crosses line boundaries. -/
theorem c6_counterexample :
    extractReceiver "Receiver\nJohn".data = some "John".data ∧
    (afterFirst "Receiver".data "Receiver\nJohn".data).map (List.takeWhile dotChar) =
      some [] ∧
    "John".data ≠ ([] : List Char) := by
  refine ⟨by decide, by decide, by decide⟩

/-- C6 amended: a field whose label does not occur in the text is simply
absent, without error; the values of the reference, receiver and payer
fields and the raw capture of the timestamp field never contain a line
terminator (a line boundary terminates those captures) — but the captured
line may be a *later* line than the label's, since the whitespace between
label and value matches newlines.  (The amount capture is excluded: its
internal `\s*` before the currency code may itself span a line break.) -/
theorem c6_captures_amended (text : List Char) :
    (testRegex (litToks "Reference No. (VAT Invoice No)".data) text = false →
      extractReferenceNumber text = none) ∧
    (testRegex (litToks "Payment Date & Time".data) text = false →
      extractPaymentDateTime text = none) ∧
    (testRegex (litToks "Total amount debited from customers account".data) text = false →
      extractTotalAmount text = none) ∧
    (testRegex (litToks "Receiver".data) text = false → extractReceiver text = none) ∧
    (testRegex (litToks "Payer".data) text = false → extractPayer text = none) ∧
    (∀ v, extractReferenceNumber text = some v → v.all dotChar = true) ∧
    (∀ c, reSearch paymentDatePre dateGrp text = some c → c.all dotChar = true) ∧
    (∀ v, extractReceiver text = some v → v.all dotChar = true) ∧
    (∀ v, extractPayer text = some v → v.all dotChar = true) := by
  refine ⟨?_, ?_, ?_, ?_, ?_, ?_, ?_, ?_, ?_⟩
  · intro hlab
    unfold extractReferenceNumber extractTrimOrNull
    cases hs : reSearch referencePre dotPlusGrp text with
    | none => rfl
    | some c =>
      exfalso
      have := label_of_reSearch
        (show reSearch (RE.cat (litRE "Reference No. (VAT Invoice No)".data)
          (RE.starCls wsChar)) dotPlusGrp text = some c from hs)
      rw [this] at hlab
      cases hlab
  · intro hlab
    unfold extractPaymentDateTime
    cases hs : reSearch paymentDatePre dateGrp text with
    | none => rfl
    | some c =>
      exfalso
      have := label_of_reSearch
        (show reSearch (RE.cat (litRE "Payment Date & Time".data)
          (RE.starCls wsChar)) dateGrp text = some c from hs)
      rw [this] at hlab
      cases hlab
  · intro hlab
    unfold extractTotalAmount extractTrimOrNull
    cases hs : reSearch totalAmountPre amountGrp text with
    | none => rfl
    | some c =>
      exfalso
      have := label_of_reSearch
        (show reSearch (RE.cat (litRE "Total amount debited from customers account".data)
          (RE.starCls wsChar)) amountGrp text = some c from hs)
      rw [this] at hlab
      cases hlab
  · intro hlab
    unfold extractReceiver extractTrimOrNull
    cases hs : reSearch receiverPre dotPlusGrp text with
    | none => rfl
    | some c =>
      exfalso
      have := label_of_reSearch
        (show reSearch (RE.cat (litRE "Receiver".data)
          (RE.starCls wsChar)) dotPlusGrp text = some c from hs)
      rw [this] at hlab
      cases hlab
  · intro hlab
    unfold extractPayer extractTrimOrNull
    cases hs : reSearch payerPre dotPlusGrp text with
    | none => rfl
    | some c =>
      exfalso
      have := label_of_reSearch
        (show reSearch (RE.cat (litRE "Payer".data)
          (RE.starCls wsChar)) dotPlusGrp text = some c from hs)
      rw [this] at hlab
      cases hlab
  · intro v hv
    unfold extractReferenceNumber extractTrimOrNull at hv
    cases hs : reSearch referencePre dotPlusGrp text with
    | none => rw [hs] at hv; cases hv
    | some c =>
      rw [hs] at hv
      have hv2 : (if jsTrim c = [] then none else some (jsTrim c)) = some v := hv
      by_cases ht : jsTrim c = []
      · rw [if_pos ht] at hv2; cases hv2
      · rw [if_neg ht] at hv2
        rw [← Option.some.inj hv2]
        exact jsTrim_all (reSearch_capture_all REclasses_dot_dotPlusGrp hs)
  · intro c hc
    exact reSearch_capture_all REclasses_dot_dateGrp hc
  · intro v hv
    unfold extractReceiver extractTrimOrNull at hv
    cases hs : reSearch receiverPre dotPlusGrp text with
    | none => rw [hs] at hv; cases hv
    | some c =>
      rw [hs] at hv
      have hv2 : (if jsTrim c = [] then none else some (jsTrim c)) = some v := hv
      by_cases ht : jsTrim c = []
      · rw [if_pos ht] at hv2; cases hv2
      · rw [if_neg ht] at hv2
        rw [← Option.some.inj hv2]
        exact jsTrim_all (reSearch_capture_all REclasses_dot_dotPlusGrp hs)
  · intro v hv
    unfold extractPayer extractTrimOrNull at hv
    cases hs : reSearch payerPre dotPlusGrp text with
    | none => rw [hs] at hv; cases hv
    | some c =>
      rw [hs] at hv
      have hv2 : (if jsTrim c = [] then none else some (jsTrim c)) = some v := hv
      by_cases ht : jsTrim c = []
      · rw [if_pos ht] at hv2; cases hv2
      · rw [if_neg ht] at hv2
        rw [← Option.some.inj hv2]
        exact jsTrim_all (reSearch_capture_all REclasses_dot_dotPlusGrp hs)

/-- Witness for C6 amended: on a text without any label every field is
absent, and a present receiver value is line-terminator free. -/
theorem c6_captures_amended_witness :
    extractReferenceNumber "plain text".data = none ∧
    extractPaymentDateTime "plain text".data = none ∧
    extractTotalAmount "plain text".data = none ∧
    extractReceiver "plain text".data = none ∧
    extractPayer "plain text".data = none ∧
    "John Doe".data.all dotChar = true :=
  ⟨(c6_captures_amended "plain text".data).1 (by decide),
   (c6_captures_amended "plain text".data).2.1 (by decide),
   (c6_captures_amended "plain text".data).2.2.1 (by decide),
   (c6_captures_amended "plain text".data).2.2.2.1 (by decide),
   (c6_captures_amended "plain text".data).2.2.2.2.1 (by decide),
   (c6_captures_amended "Receiver John Doe".data).2.2.2.2.2.2.2.1 "John Doe".data
     (by decide)⟩

/-! ### Claim C3: unparseable timestamp captures -/

/-- C3 names a real bug in the source: `new Date` never throws, so the
`try`/`catch` in `extractPaymentDateTime` is dead code, and a captured
text that matches the timestamp pattern but is unparseable as a date
(such as `99/99/9999, 9:99:99 AM`) produces a *present Invalid Date*
(`some none`), not an absent field.  The invalid record even passes the
mandatory-field check of `extractTransactionDetails` (an Invalid Date is
a truthy object) and the age check (the dayjs difference is `NaN`, and
`NaN > maxAgeHours` is false), so the pipeline returns it.  A parseable
capture is returned as a valid date, as the claim describes. -/
theorem c3_unparseable_date_not_absent :
    extractPaymentDateTime "Payment Date & Time 99/99/9999, 9:99:99 AM".data = some none ∧
    some (none : JsDate) ≠ (none : Option JsDate) ∧
    extractTransactionDetails 0 (fun _ => 0)
      "Reference No. (VAT Invoice No) FT25200VMC5N\nPayment Date & Time 99/99/9999, 9:99:99 AM".data
      ⟨"88961473".data, none, none⟩ =
      .ok { transactionRefNumber := some "FT25200VMC5N".data,
            paymentDateTime := some none,
            totalAmountDebited := none,
            receiver := none,
            payer := none } ∧
    extractPaymentDateTime "Payment Date & Time 12/25/2023, 2:30:45 PM".data =
      some (some ⟨12, 25, 2023, 2, 30, 45, true⟩) := by
  refine ⟨by decide, by decide, by decide, by decide⟩
